import Mathlib

/-!
Verification of the audit netlink codec (`src/netlink-packet-audit/src/codec.rs`,
`NetlinkAuditCodec::decode` / `NetlinkAuditCodec::encode`).

The byte buffer (`BytesMut`) is modelled as a `List Nat` of byte values;
splitting a prefix off the front is `List.take`/`List.drop`, clearing is `[]`.
The typed message codec (`NetlinkMessage::<T>::deserialize`) is an external
collaborator and is a parameter `deser : List Nat → Option M`.  The header
view operations of `NetlinkBuffer` (netlink-packet-core) are not under the
analysed sources, so they are modelled from the spec (see the doc comments).
The decode loop is given as a fuel-indexed structural recursion; fuel equal to
the buffer length is always sufficient because every iteration consumes at
least one byte, so `decode` below is the exact loop of the source.
-/

set_option maxRecDepth 8000

namespace AuditCodec

variable {M : Type}

/-- Modelled from the spec: the Frame Header View's declared total frame
length (`NetlinkBuffer::length` of netlink-packet-core, which is not under
the analysed sources).  Per §3/§6 the header stores the declared length as a
32-bit field at the start of the buffer; it is modelled little-endian over
the first four bytes. -/
def nlLength : List Nat → Nat
  | b0 :: b1 :: b2 :: b3 :: _ => b0 + 256 * b1 + 65536 * b2 + 16777216 * b3
  | _ => 0

/-- Modelled from the spec: `NetlinkBuffer::set_length` (not under the
analysed sources) overwrites the declared-length field in place; the call
site in the codec casts the new value with `as u32`, hence each stored byte
is reduced mod 256 and only the low 32 bits are kept.  On a buffer shorter
than the field the buffer is returned unchanged (the codec only calls this
on a successfully checked header, which has at least 16 bytes). -/
def setLength (v : Nat) (b : List Nat) : List Nat :=
  match b with
  | _ :: _ :: _ :: _ :: rest =>
      v % 256 :: v / 256 % 256 :: v / 65536 % 256 :: v / 16777216 % 256 :: rest
  | _ => b

/-- Modelled from the spec: `NetlinkBuffer::new_checked` (not under the
analysed sources).  Per §4.2/§7 header parsing fails on insufficient bytes
for the 16-byte header (length, type, flags, sequence number, port id), on a
declared length exceeding the buffer (truncated packet), or on a declared
length smaller than the header itself (internally inconsistent). -/
def newChecked (b : List Nat) : Bool :=
  decide (16 ≤ b.length) && decide (nlLength b ≤ b.length) &&
    decide (16 ≤ nlLength b)

/-- The audit codec's slack test
`(src_len as isize - buf.length() as isize) <= 16` (codec.rs line 50),
with the machine-int subtraction carried out in `Int`. -/
def slackSmall (b : List Nat) : Bool :=
  decide ((b.length : Int) - (nlLength b : Int) ≤ 16)

/-- The frame length resolved by `NetlinkAuditCodec::decode`: the whole
buffer when the slack is at most 16, the declared length otherwise. -/
def resolvedLen (b : List Nat) : Nat :=
  if slackSmall b then b.length else nlLength b

/-- The buffer after the in-place length rewrite performed by
`NetlinkAuditCodec::decode` (`buf.set_length(src_len as u32)`) in the
small-slack branch; the buffer is untouched otherwise. -/
def frameBuf (b : List Nat) : List Nat :=
  if slackSmall b then setLength b.length b else b

/-- Fuel-indexed form of the `loop` in `NetlinkAuditCodec::decode`:
empty buffer yields `Ok(None)`; an unparseable header clears the buffer and
yields `Ok(None)`; otherwise `resolvedLen` bytes of the (possibly rewritten)
buffer are split off and handed to the typed codec, a failure there dropping
the frame and looping on the remainder.  Fuel at least the buffer length
makes the fuel-exhaustion case unreachable. -/
def decodeF (deser : List Nat → Option M) :
    Nat → List Nat → Except String (Option M) × List Nat
  | 0, src => (Except.ok none, src)
  | fuel + 1, src =>
    if src = [] then (Except.ok none, src)
    else
      if newChecked src then
        match deser ((frameBuf src).take (resolvedLen src)) with
        | some m => (Except.ok (some m), (frameBuf src).drop (resolvedLen src))
        | none => decodeF deser fuel ((frameBuf src).drop (resolvedLen src))
      else (Except.ok none, [])

/-- `NetlinkAuditCodec::decode`, the fuel instantiated with the buffer
length (sufficient, since every loop iteration consumes at least one byte).
The returned pair is (result, buffer contents after the call). -/
def decode (deser : List Nat → Option M) (src : List Nat) :
    Except String (Option M) × List Nat :=
  decodeF deser src.length src

/-- `NetlinkAuditCodec::encode`: a pure passthrough to the generic codec
`NetlinkCodec::encode` (an external collaborator, passed as `ge`), which
appends the serialized message to the caller's output buffer. -/
def encode (ge : M → List Nat → Except String Unit × List Nat) (msg : M)
    (buf : List Nat) : Except String Unit × List Nat :=
  ge msg buf

/-- A well-formed 20-byte frame: declared length 20, then type/flags,
sequence number, port id, and a 4-byte payload. -/
def frame20 : List Nat :=
  [20, 0, 0, 0, 5, 0, 0, 0, 9, 0, 0, 0, 3, 0, 0, 0, 65, 66, 67, 68]

/-- A well-formed 24-byte frame: declared length 24 and an 8-byte payload. -/
def frame24 : List Nat :=
  [24, 0, 0, 0, 6, 0, 0, 0, 10, 0, 0, 0, 3, 0, 0, 0, 1, 2, 3, 4, 5, 6, 7, 8]

/-- A well-framed 30-byte frame (declared length 30) whose payload the
sample typed codec `deserFrames` does not recognise. -/
def frame30 : List Nat :=
  [30, 0, 0, 0, 7, 0, 0, 0, 11, 0, 0, 0, 3, 0, 0, 0,
   99, 99, 99, 99, 99, 99, 99, 99, 99, 99, 99, 99, 99, 99]

/-- A 36-byte buffer whose header declares length 28 (slack 8): the
truncated-packet shape of spec property P4. -/
def src36 : List Nat :=
  [28, 0, 0, 0, 8, 0, 0, 0, 12, 0, 0, 0, 3, 0, 0, 0,
   1, 1, 1, 1, 1, 1, 1, 1, 1, 1, 1, 1, 1, 1, 1, 1, 1, 1, 1, 1]

/-- Two back-to-back well-formed frames, 44 bytes in total (spec P5). -/
def src44 : List Nat := frame20 ++ frame24

/-- An undecodable 30-byte frame followed by a valid 20-byte frame
(spec P7). -/
def src50 : List Nat := frame30 ++ frame20

/-- A buffer whose header cannot be parsed (declared length 0, internally
inconsistent), followed by bytes that would form a valid frame (spec P6). -/
def srcBad : List Nat := [0, 0, 0, 0] ++ frame20

/-- A sample typed codec recognising exactly `frame20` (as message 1) and
`frame24` (as message 2). -/
def deserFrames (b : List Nat) : Option Nat :=
  if b = frame20 then some 1 else if b = frame24 then some 2 else none

/-- A sample typed codec accepting any 36-byte frame, used on `src36`. -/
def deserLen36 (b : List Nat) : Option Nat :=
  if b.length = 36 then some 7 else none

/-- A sample serializer producing the fixed frame `frame20`. -/
def serFrame20 : Nat → List Nat := fun _ => frame20

theorem newChecked_iff (b : List Nat) :
    newChecked b = true ↔
      16 ≤ b.length ∧ nlLength b ≤ b.length ∧ 16 ≤ nlLength b := by
  simp [newChecked, and_assoc]

theorem slackSmall_iff (b : List Nat) :
    slackSmall b = true ↔ (b.length : Int) - (nlLength b : Int) ≤ 16 := by
  simp [slackSmall]

theorem setLength_length (v : Nat) (b : List Nat) :
    (setLength v b).length = b.length := by
  rcases b with _ | ⟨a, _ | ⟨c, _ | ⟨d, _ | ⟨e, rest⟩⟩⟩⟩ <;> simp [setLength]

theorem nlLength_setLength (v : Nat) (b : List Nat) (h4 : 4 ≤ b.length) :
    nlLength (setLength v b) = v % 4294967296 := by
  rcases b with _ | ⟨a, _ | ⟨c, _ | ⟨d, _ | ⟨e, rest⟩⟩⟩⟩
  · simp at h4
  · simp at h4
  · simp at h4
  · simp at h4
  · simp [setLength, nlLength]
    omega

theorem setLength_self (b : List Nat) (hb : ∀ x ∈ b, x < 256) :
    setLength (nlLength b) b = b := by
  rcases b with _ | ⟨b0, _ | ⟨b1, _ | ⟨b2, _ | ⟨b3, rest⟩⟩⟩⟩
  · rfl
  · rfl
  · rfl
  · rfl
  · have h0 : b0 < 256 := hb b0 (by simp)
    have h1 : b1 < 256 := hb b1 (by simp)
    have h2 : b2 < 256 := hb b2 (by simp)
    have h3 : b3 < 256 := hb b3 (by simp)
    simp [setLength, nlLength]
    omega

theorem frameBuf_length (b : List Nat) : (frameBuf b).length = b.length := by
  unfold frameBuf
  split <;> simp [setLength_length]

theorem resolvedLen_pos (b : List Nat) (h : newChecked b = true) :
    1 ≤ resolvedLen b := by
  obtain ⟨h1, h2, h3⟩ := (newChecked_iff b).1 h
  unfold resolvedLen
  split <;> omega

theorem resolvedLen_le (b : List Nat) (h : newChecked b = true) :
    resolvedLen b ≤ b.length := by
  obtain ⟨h1, h2, h3⟩ := (newChecked_iff b).1 h
  unfold resolvedLen
  split <;> omega

theorem rest_length (b : List Nat) :
    ((frameBuf b).drop (resolvedLen b)).length = b.length - resolvedLen b := by
  simp [frameBuf_length]

theorem decodeF_nil (deser : List Nat → Option M) (fuel : Nat) :
    decodeF deser fuel [] = (Except.ok none, ([] : List Nat)) := by
  cases fuel <;> simp [decodeF]

theorem decodeF_cons (deser : List Nat → Option M) (fuel : Nat)
    (src : List Nat) (hne : src ≠ []) (hchk : newChecked src = true) :
    decodeF deser (fuel + 1) src =
      match deser ((frameBuf src).take (resolvedLen src)) with
      | some m => (Except.ok (some m), (frameBuf src).drop (resolvedLen src))
      | none => decodeF deser fuel ((frameBuf src).drop (resolvedLen src)) := by
  simp only [decodeF]
  rw [if_neg hne, if_pos hchk]

theorem decodeF_unchecked (deser : List Nat → Option M) (fuel : Nat)
    (src : List Nat) (hne : src ≠ []) (hchk : newChecked src = false) :
    decodeF deser (fuel + 1) src = (Except.ok none, ([] : List Nat)) := by
  simp only [decodeF]
  rw [if_neg hne, if_neg (by simp [hchk])]

theorem decodeF_congr (deser : List Nat → Option M) :
    ∀ (f g : Nat) (src : List Nat), src.length ≤ f → src.length ≤ g →
      decodeF deser f src = decodeF deser g src := by
  intro f
  induction f with
  | zero =>
    intro g src hf _
    have hsrc : src = [] := List.length_eq_zero.1 (Nat.le_zero.1 hf)
    subst hsrc
    simp [decodeF_nil]
  | succ f ih =>
    intro g src hf hg
    by_cases hs : src = []
    · subst hs
      simp [decodeF_nil]
    · rcases g with _ | g
      · exact absurd (List.length_eq_zero.1 (Nat.le_zero.1 hg)) hs
      · by_cases hchk : newChecked src = true
        · have hpos := resolvedLen_pos src hchk
          have hrest : ((frameBuf src).drop (resolvedLen src)).length ≤
              src.length - 1 := by
            rw [rest_length]; omega
          rw [decodeF_cons deser f src hs hchk,
            decodeF_cons deser g src hs hchk]
          cases hd : deser ((frameBuf src).take (resolvedLen src)) with
          | some m => rfl
          | none => exact ih g _ (by omega) (by omega)
        · rw [decodeF_unchecked deser f src hs (by simpa using hchk),
            decodeF_unchecked deser g src hs (by simpa using hchk)]

theorem decode_checked (deser : List Nat → Option M) (src : List Nat)
    (hchk : newChecked src = true) :
    decode deser src =
      match deser ((frameBuf src).take (resolvedLen src)) with
      | some m => (Except.ok (some m), (frameBuf src).drop (resolvedLen src))
      | none => decode deser ((frameBuf src).drop (resolvedLen src)) := by
  have h16 : 16 ≤ src.length := ((newChecked_iff src).1 hchk).1
  have hs : src ≠ [] := by
    rintro rfl
    simp at h16
  have hpos := resolvedLen_pos src hchk
  have hrest : ((frameBuf src).drop (resolvedLen src)).length ≤
      src.length - 1 := by
    rw [rest_length]; omega
  obtain ⟨k, hk⟩ : ∃ k, src.length = k + 1 := ⟨src.length - 1, by omega⟩
  unfold decode
  rw [hk, decodeF_cons deser k src hs hchk]
  cases hd : deser ((frameBuf src).take (resolvedLen src)) with
  | some m => rfl
  | none =>
    exact decodeF_congr deser k _ _ (by omega) (le_refl _)

theorem decode_small (deser : List Nat → Option M) (src : List Nat)
    (hchk : newChecked src = true) (hsl : slackSmall src = true) :
    decode deser src = (Except.ok (deser (setLength src.length src)), []) := by
  have hfb : frameBuf src = setLength src.length src := by
    unfold frameBuf
    rw [if_pos hsl]
  have hrl : resolvedLen src = src.length := by
    unfold resolvedLen
    rw [if_pos hsl]
  have htake : (frameBuf src).take (resolvedLen src) =
      setLength src.length src := by
    rw [hfb, hrl]
    exact List.take_of_length_le (by rw [setLength_length])
  have hdrop : (frameBuf src).drop (resolvedLen src) = [] := by
    apply List.drop_eq_nil_of_le
    rw [frameBuf_length, hrl]
  rw [decode_checked deser src hchk, htake, hdrop]
  cases hd : deser (setLength src.length src) with
  | some m => rfl
  | none => simp [decode, decodeF_nil]

theorem decode_large (deser : List Nat → Option M) (src : List Nat)
    (hchk : newChecked src = true) (hsl : slackSmall src = false) :
    decode deser src =
      match deser (src.take (nlLength src)) with
      | some m => (Except.ok (some m), src.drop (nlLength src))
      | none => decode deser (src.drop (nlLength src)) := by
  have hfb : frameBuf src = src := by
    unfold frameBuf
    rw [if_neg (by simp [hsl])]
  have hrl : resolvedLen src = nlLength src := by
    unfold resolvedLen
    rw [if_neg (by simp [hsl])]
  have h := decode_checked deser src hchk
  rw [hfb, hrl] at h
  exact h

theorem decodeF_shrink (deser : List Nat → Option M) :
    ∀ (fuel : Nat) (src : List Nat), src.length ≤ fuel → src ≠ [] →
      (decodeF deser fuel src).2.length < src.length := by
  intro fuel
  induction fuel with
  | zero =>
    intro src h hne
    exact absurd (List.length_eq_zero.1 (Nat.le_zero.1 h)) hne
  | succ f ih =>
    intro src h hne
    have hlenpos : 0 < src.length := List.length_pos.2 hne
    by_cases hchk : newChecked src = true
    · have hpos := resolvedLen_pos src hchk
      have hrest := rest_length src
      rw [decodeF_cons deser f src hne hchk]
      cases hd : deser ((frameBuf src).take (resolvedLen src)) with
      | some m =>
        show ((frameBuf src).drop (resolvedLen src)).length < src.length
        omega
      | none =>
        show (decodeF deser f ((frameBuf src).drop (resolvedLen src))).2.length
            < src.length
        by_cases hr : (frameBuf src).drop (resolvedLen src) = []
        · rw [hr, decodeF_nil]
          simpa using hlenpos
        · have hlt := ih _ (by omega) hr
          omega
    · rw [decodeF_unchecked deser f src hne (by simpa using hchk)]
      simpa using hlenpos

theorem decode_shrink (deser : List Nat → Option M) (src : List Nat)
    (hne : src ≠ []) : (decode deser src).2.length < src.length :=
  decodeF_shrink deser src.length src (le_refl _) hne

theorem decode_rest_le (deser : List Nat → Option M) (src : List Nat) :
    (decode deser src).2.length ≤ src.length := by
  by_cases h : src = []
  · subst h
    simp [decode, decodeF_nil]
  · exact le_of_lt (decode_shrink deser src h)

theorem iterate_drain (deser : List Nat → Option M) :
    ∀ (n : Nat) (src : List Nat), src.length ≤ n →
      (fun b => (decode deser b).2)^[n] src = [] := by
  intro n
  induction n with
  | zero =>
    intro src h
    simpa using List.length_eq_zero.1 (Nat.le_zero.1 h)
  | succ n ih =>
    intro src h
    rw [Function.iterate_succ_apply]
    by_cases hs : src = []
    · subst hs
      exact ih _ (by simp [decode, decodeF_nil])
    · exact ih _ (by have := decode_shrink deser src hs; omega)

theorem decodeF_ok (deser : List Nat → Option M) :
    ∀ (fuel : Nat) (src : List Nat),
      ∃ o, (decodeF deser fuel src).1 = Except.ok o := by
  intro fuel
  induction fuel with
  | zero => exact fun src => ⟨none, rfl⟩
  | succ f ih =>
    intro src
    by_cases hs : src = []
    · subst hs
      rw [decodeF_nil]
      exact ⟨none, rfl⟩
    · by_cases hchk : newChecked src = true
      · cases hd : deser ((frameBuf src).take (resolvedLen src)) with
        | some m =>
          exact ⟨some m, by rw [decodeF_cons deser f src hs hchk, hd]⟩
        | none =>
          obtain ⟨o, ho⟩ := ih ((frameBuf src).drop (resolvedLen src))
          exact ⟨o, by rw [decodeF_cons deser f src hs hchk, hd]; exact ho⟩
      · exact ⟨none, by rw [decodeF_unchecked deser f src hs (by simpa using hchk)]⟩

/-- C1: for every non-empty buffer whose prefix parses as a valid frame
header, if the slack (buffer length minus declared length, as a signed
quantity) is at most 16, then decode rewrites the header's length field in
place to the buffer length, splits the whole buffer off as one frame, and
passes it as a single frame to the typed-message codec; the buffer is left
empty, so no trailing bytes are ever treated as a second frame. -/
theorem C1_small_slack_consumes_whole_buffer (deser : List Nat → Option M)
    (src : List Nat) (_hne : src ≠ []) (hchk : newChecked src = true)
    (hsl : (src.length : Int) - (nlLength src : Int) ≤ 16)
    (hsz : src.length < 4294967296) :
    decode deser src = (Except.ok (deser (setLength src.length src)), []) ∧
    nlLength (setLength src.length src) = src.length := by
  have hb : slackSmall src = true := (slackSmall_iff src).2 hsl
  refine ⟨decode_small deser src hchk hb, ?_⟩
  have h16 : 16 ≤ src.length := ((newChecked_iff src).1 hchk).1
  rw [nlLength_setLength src.length src (by omega)]
  omega

/-- C1 witness: the 36-byte buffer of spec property P4, whose header
declares length 28 (slack 8): all 36 bytes are consumed as one frame, the
length field is rewritten to 36, and the buffer ends empty. -/
theorem C1_witness :
    src36 ≠ [] ∧ newChecked src36 = true ∧
    ((src36.length : Int) - (nlLength src36 : Int) ≤ 16) ∧
    src36.length < 4294967296 ∧
    decode deserLen36 src36 = (Except.ok (some 7), ([] : List Nat)) ∧
    nlLength (setLength src36.length src36) = src36.length := by
  have h := C1_small_slack_consumes_whole_buffer deserLen36 src36 (by decide)
    (by decide) (by decide) (by decide)
  refine ⟨by decide, by decide, by decide, by decide, ?_, h.2⟩
  rw [h.1]
  rfl

/-- C2: for every buffer whose prefix parses as a valid frame header with
slack strictly greater than 16, decode trusts the declared length, splitting
exactly that many bytes off the front (no length rewrite); a successful
typed decode of those bytes returns that message with the remainder left
buffered, a failed one loops on the remainder. -/
theorem C2_large_slack_trusts_declared (deser : List Nat → Option M)
    (src : List Nat) (hchk : newChecked src = true)
    (hsl : 16 < (src.length : Int) - (nlLength src : Int)) :
    decode deser src =
      match deser (src.take (nlLength src)) with
      | some m => (Except.ok (some m), src.drop (nlLength src))
      | none => decode deser (src.drop (nlLength src)) := by
  have hb : slackSmall src = false := by
    simp only [slackSmall, decide_eq_false_iff_not]
    omega
  exact decode_large deser src hchk hb

/-- C2 witness: the 44-byte two-frame buffer of spec property P5 (declared
lengths 20 and 24): the first call returns message 1 and leaves the 24
trailing bytes buffered, the second call returns message 2 and leaves the
buffer empty. -/
theorem C2_witness :
    newChecked src44 = true ∧
    (16 < (src44.length : Int) - (nlLength src44 : Int)) ∧
    decode deserFrames src44 = (Except.ok (some 1), frame24) ∧
    decode deserFrames frame24 = (Except.ok (some 2), ([] : List Nat)) := by
  refine ⟨by decide, by decide, ?_, by rfl⟩
  rw [C2_large_slack_trusts_declared deserFrames src44 (by decide) (by decide)]
  rfl

/-- C3: for every non-empty buffer whose prefix fails to parse as a frame
header, decode clears the entire buffer and returns `Ok(None)` — no typed
error is propagated — even if bytes after the corrupt prefix would have
formed valid frames. -/
theorem C3_unparseable_header_clears_buffer (deser : List Nat → Option M)
    (src : List Nat) (hne : src ≠ []) (hchk : newChecked src = false) :
    decode deser src = (Except.ok none, ([] : List Nat)) := by
  have hpos : 0 < src.length := List.length_pos.2 hne
  obtain ⟨k, hk⟩ : ∃ k, src.length = k + 1 := ⟨src.length - 1, by omega⟩
  unfold decode
  rw [hk]
  exact decodeF_unchecked deser k src hne hchk

/-- C3 witness: a corrupt 4-byte header (declared length 0) followed by a
valid 20-byte frame: the whole buffer is discarded and no message returned,
even though the trailing bytes form a frame `deserFrames` accepts. -/
theorem C3_witness :
    srcBad ≠ [] ∧ newChecked srcBad = false ∧
    deserFrames (srcBad.drop 4) = some 1 ∧
    decode deserFrames srcBad = (Except.ok none, ([] : List Nat)) :=
  ⟨by decide, by decide, by decide,
    C3_unparseable_header_clears_buffer deserFrames srcBad (by decide)
      (by decide)⟩

/-- C4: whenever a frame's header parses and its resolved-length bytes are
split off but the typed-message codec fails on them, decode drops only that
frame and continues on the remaining buffer, behaving exactly as a fresh
decode call on the remainder. -/
theorem C4_bad_payload_drops_single_frame (deser : List Nat → Option M)
    (src : List Nat) (hchk : newChecked src = true)
    (hde : deser ((frameBuf src).take (resolvedLen src)) = none) :
    decode deser src = decode deser ((frameBuf src).drop (resolvedLen src)) := by
  rw [decode_checked deser src hchk, hde]

/-- C4 witness: the buffer of spec property P7 — an undecodable well-framed
30-byte frame followed by a valid 20-byte frame: one decode call skips the
first frame and returns the second frame's message, leaving the buffer
empty. -/
theorem C4_witness :
    newChecked src50 = true ∧
    deserFrames ((frameBuf src50).take (resolvedLen src50)) = none ∧
    decode deserFrames src50 = (Except.ok (some 1), ([] : List Nat)) := by
  refine ⟨by decide, by decide, ?_⟩
  rw [C4_bad_payload_drops_single_frame deserFrames src50 (by decide)
    (by decide)]
  rfl

/-- C5: whenever the header parses, the resolved frame length lies in
`[1, buffer length]`, and the in-place length rewrite preserves the buffer
length, so the subsequent split of that many bytes off the front is always
in bounds: decode never reads out of bounds on malformed input. -/
theorem C5_resolved_length_in_bounds (src : List Nat)
    (hchk : newChecked src = true) :
    1 ≤ resolvedLen src ∧ resolvedLen src ≤ src.length ∧
    (frameBuf src).length = src.length ∧
    resolvedLen src ≤ (frameBuf src).length := by
  have h1 := resolvedLen_pos src hchk
  have h2 := resolvedLen_le src hchk
  have h3 := frameBuf_length src
  exact ⟨h1, h2, h3, by omega⟩

/-- C5 witness: the bounds instantiated on the truncated 36-byte buffer. -/
theorem C5_witness :
    newChecked src36 = true ∧
    (1 ≤ resolvedLen src36 ∧ resolvedLen src36 ≤ src36.length ∧
      (frameBuf src36).length = src36.length ∧
      resolvedLen src36 ≤ (frameBuf src36).length) :=
  ⟨by decide, C5_resolved_length_in_bounds src36 (by decide)⟩

/-- C6: every decode call terminates and never increases the buffer length;
a call on a non-empty buffer strictly shrinks it, so iterating "call decode,
keep the remaining buffer" for as many steps as the initial length empties
the buffer, after which decode returns no message. -/
theorem C6_decode_terminates_and_drains (deser : List Nat → Option M)
    (src : List Nat) :
    (decode deser src).2.length ≤ src.length ∧
    (src ≠ [] → (decode deser src).2.length < src.length) ∧
    (fun b => (decode deser b).2)^[src.length] src = [] ∧
    decode deser ((fun b => (decode deser b).2)^[src.length] src) =
      (Except.ok none, ([] : List Nat)) := by
  refine ⟨decode_rest_le deser src, fun h => decode_shrink deser src h,
    iterate_drain deser src.length src (le_refl _), ?_⟩
  rw [iterate_drain deser src.length src (le_refl _)]
  rfl

/-- C6 witness: the strict-shrink component instantiated on the non-empty
36-byte buffer. -/
theorem C6_witness :
    src36 ≠ [] ∧ (decode deserLen36 src36).2.length < src36.length :=
  ⟨by decide, (C6_decode_terminates_and_drains deserLen36 src36).2.1
    (by decide)⟩

/-- C7: decode on an empty buffer returns `Ok(None)` — not an error — and
leaves the buffer empty. -/
theorem C7_empty_buffer_is_none (deser : List Nat → Option M) :
    decode deser [] = (Except.ok none, ([] : List Nat)) := rfl

/-- C8: encoding a message and decoding the produced bytes yields the
original message, whenever the serialized frame is well formed (parseable
header, byte-valued entries), its slack is zero or greater than 16, and the
typed codec round-trips on the frame bytes. -/
theorem C8_encode_decode_round_trip (ser : M → List Nat)
    (deser : List Nat → Option M) (msg : M)
    (hbytes : ∀ x ∈ ser msg, x < 256)
    (hchk : newChecked (ser msg) = true)
    (hsl : nlLength (ser msg) = (ser msg).length ∨
      (nlLength (ser msg) : Int) + 16 < ((ser msg).length : Int))
    (hde : deser ((ser msg).take (nlLength (ser msg))) = some msg) :
    (decode deser (ser msg)).1 = Except.ok (some msg) := by
  rcases hsl with h0 | hgt
  · have hb : slackSmall (ser msg) = true := by
      simp only [slackSmall, decide_eq_true_eq]
      omega
    have hset : setLength (ser msg).length (ser msg) = ser msg := by
      rw [← h0]
      exact setLength_self (ser msg) hbytes
    have hde' : deser (ser msg) = some msg := by
      rw [h0, List.take_length] at hde
      exact hde
    rw [decode_small deser (ser msg) hchk hb]
    show Except.ok (deser (setLength (ser msg).length (ser msg))) =
      Except.ok (some msg)
    rw [hset, hde']
  · have hb : slackSmall (ser msg) = false := by
      simp only [slackSmall, decide_eq_false_iff_not]
      omega
    rw [decode_large deser (ser msg) hchk hb, hde]

/-- C8 witness: a serializer producing the exact 20-byte frame `frame20`
(slack 0) round-trips through decode with the sample typed codec. -/
theorem C8_witness :
    (∀ x ∈ serFrame20 1, x < 256) ∧ newChecked (serFrame20 1) = true ∧
    nlLength (serFrame20 1) = (serFrame20 1).length ∧
    deserFrames ((serFrame20 1).take (nlLength (serFrame20 1))) = some 1 ∧
    (decode deserFrames (serFrame20 1)).1 = Except.ok (some 1) :=
  ⟨by decide, by decide, by decide, by decide,
    C8_encode_decode_round_trip serFrame20 deserFrames 1 (by decide)
      (by decide) (Or.inl (by decide)) (by decide)⟩

/-- C9: the audit codec's encode is a pure passthrough: for every typed
message and output buffer it produces exactly the generic codec's encode
result and output-buffer contents. -/
theorem C9_encode_is_generic_passthrough
    (ge : M → List Nat → Except String Unit × List Nat) (msg : M)
    (buf : List Nat) : encode ge msg buf = ge msg buf := rfl

/-- C10: for every input buffer, decode never returns the error variant of
its result type: every execution path ends in `Ok`. -/
theorem C10_decode_never_errors (deser : List Nat → Option M)
    (src : List Nat) : ∃ o, (decode deser src).1 = Except.ok o :=
  decodeF_ok deser src.length src

end AuditCodec
